import Mathlib

/-!
# Verification of the ratio.ai Ingredient Normalization & Ratio Engine

Shallow embedding of the ratio.ai repository's core data model and
operations, together with theorems settling the specification claims.

The frontend (React, `frontend/src/App.tsx`) is embedded directly from the
source: the category-color keyword matcher `getIngredientCategoryColor`
and the table edit operation `updateIngredient`.  The backend pipeline
(parser, unit normalizer, gram converter, categorizer, ratio engine) is a
Python FastAPI service whose source is not part of this tree; those
operations are modelled from the specification, as indicated on each
definition.

Numbers (JS floats / Python floats) are embedded as the exact fraction
type `Q` below: every value the pipeline constructs keeps a positive
denominator, comparisons are by cross-multiplication, and all operations
are structurally recursive so concrete runs kernel-evaluate.
-/

set_option maxRecDepth 100000

/-- `charsPrefix sub s` is `true` iff the char list `sub` is a prefix of
`s` (structural recursion, so that concrete instances kernel-evaluate). -/
def charsPrefix : List Char → List Char → Bool
  | [], _ => true
  | _ :: _, [] => false
  | a :: as, b :: bs => a == b && charsPrefix as bs

/-- `charsContains sub s` is `true` iff `sub` occurs contiguously in `s`. -/
def charsContains (sub : List Char) : List Char → Bool
  | [] => sub.isEmpty
  | c :: rest => charsPrefix sub (c :: rest) || charsContains sub rest

/-- Model of JavaScript `String.prototype.includes`: `strIncludes s sub`
is `true` iff `sub` occurs as a contiguous substring of `s` (and the empty
string occurs in every string). -/
def strIncludes (s sub : String) : Bool :=
  charsContains sub.data s.data

/-- ASCII lowercasing of one character, as JavaScript `toLowerCase` and
Python `lower` act on the ASCII range. -/
def toLowerChar (c : Char) : Char :=
  if 65 ≤ c.toNat ∧ c.toNat ≤ 90 then Char.ofNat (c.toNat + 32) else c

/-- Model of JavaScript `String.prototype.toLowerCase` (ASCII range). -/
def strToLower (s : String) : String :=
  String.mk (s.data.map toLowerChar)

/-- Flour-family keyword test, transcribed from the first `if` of
`getIngredientCategoryColor` (App.tsx lines 381-383); the same keyword
list appears in the spec's Categorizer rules. -/
def flourMatch (l : String) : Bool :=
  strIncludes l "flour" || strIncludes l "pasta" || strIncludes l "bread" ||
    strIncludes l "cornstarch"

/-- The substring-matched liquid-family keywords (App.tsx lines 386-388,
everything in the liquid condition except the two exact `egg` checks). -/
def liquidSubstrKw (l : String) : Bool :=
  strIncludes l "water" || strIncludes l "milk" || strIncludes l "cream" ||
    strIncludes l "stock" || strIncludes l "broth" || strIncludes l "wine" ||
    strIncludes l "beer" || strIncludes l "juice"

/-- The full liquid-family condition of `getIngredientCategoryColor`:
substring keywords, plus `name === 'egg'` and `name === 'eggs'` which the
source compares by exact equality on the whole lowercased name. -/
def liquidMatch (l : String) : Bool :=
  liquidSubstrKw l || l == "egg" || l == "eggs"

/-- Fat-family keyword test (App.tsx lines 393-394). -/
def fatMatch (l : String) : Bool :=
  strIncludes l "butter" || strIncludes l "oil" || strIncludes l "lard" ||
    strIncludes l "shortening" || strIncludes l "cheese"

/-- Sugar-family keyword test (App.tsx line 399). -/
def sugarKw (l : String) : Bool :=
  strIncludes l "sugar" || strIncludes l "honey" || strIncludes l "maple syrup"

/-- Embedding of `getIngredientCategoryColor` (App.tsx lines 377-405):
lowercase the name, then run the four family conditions in order,
returning the first matching family's color, or dark red by default. -/
def getIngredientCategoryColor (ingredientName : String) : String :=
  if flourMatch (strToLower ingredientName) then "#228B22"
  else if liquidMatch (strToLower ingredientName) then "#4169E1"
  else if fatMatch (strToLower ingredientName) then "#FF8C00"
  else if sugarKw (strToLower ingredientName) then "#FF69B4"
  else "#8B0000"

/-- The four keyword families of the categorizer, in source order. -/
inductive Fam
  | flourFam
  | liquidFam
  | fatFam
  | sugarFam
deriving DecidableEq

/-- Position of a family in the source's `if` chain (0 = checked first). -/
def famRank : Fam → Nat
  | .flourFam => 0
  | .liquidFam => 1
  | .fatFam => 2
  | .sugarFam => 3

/-- The matching condition the source evaluates for each family. -/
def famMatch : Fam → String → Bool
  | .flourFam, l => flourMatch l
  | .liquidFam, l => liquidMatch l
  | .fatFam, l => fatMatch l
  | .sugarFam, l => sugarKw l

/-- The color each family's branch returns. -/
def famColor : Fam → String
  | .flourFam => "#228B22"
  | .liquidFam => "#4169E1"
  | .fatFam => "#FF8C00"
  | .sugarFam => "#FF69B4"

/-- The fixed ratio category set of the data model. -/
inductive Category
  | flour
  | liquid
  | egg
  | fat
  | other
deriving DecidableEq

/-- Modelled from the spec: the backend Categorizer (`name → category`)
is not under `src/`; per spec section 4.5 it is an ordered,
first-match-wins keyword rule list with the same families and keywords as
the frontend matcher: flour-family first, then the liquid-family
(whose `egg`/`eggs` keywords yield the dedicated `egg` category of the
data model's category set), then the fat-family; the sugar-family and
every unmatched name map to `other`. -/
def categorize (nm : String) : Category :=
  if flourMatch (strToLower nm) then .flour
  else if liquidSubstrKw (strToLower nm) then .liquid
  else if strIncludes (strToLower nm) "egg" then .egg
  else if fatMatch (strToLower nm) then .fat
  else .other

/-- **C2** For every ingredient name, categorization evaluates the keyword
families first-match-wins in the fixed priority flour, liquid, fat, sugar:
if a family matches and no higher-priority family matches, its color is
returned — hence a name matching two families is always assigned the
higher-priority one.  Moreover a sugar-family name that matches no
ratio-eligible family is categorized `other` for ratio purposes. -/
theorem c2_first_match_priority :
    (∀ (nm : String) (f : Fam), famMatch f (strToLower nm) = true →
      (∀ g : Fam, famRank g < famRank f → famMatch g (strToLower nm) = false) →
      getIngredientCategoryColor nm = famColor f) ∧
    (∀ nm : String, sugarKw (strToLower nm) = true →
      flourMatch (strToLower nm) = false → liquidSubstrKw (strToLower nm) = false →
      strIncludes (strToLower nm) "egg" = false → fatMatch (strToLower nm) = false →
      categorize nm = Category.other) := by
  constructor
  · intro nm f hf hg
    cases f with
    | flourFam =>
      simp only [famMatch] at hf
      simp [getIngredientCategoryColor, famColor, hf]
    | liquidFam =>
      have h0 := hg .flourFam (by decide)
      simp only [famMatch] at hf h0
      simp [getIngredientCategoryColor, famColor, hf, h0]
    | fatFam =>
      have h0 := hg .flourFam (by decide)
      have h1 := hg .liquidFam (by decide)
      simp only [famMatch] at hf h0 h1
      simp [getIngredientCategoryColor, famColor, hf, h0, h1]
    | sugarFam =>
      have h0 := hg .flourFam (by decide)
      have h1 := hg .liquidFam (by decide)
      have h2 := hg .fatFam (by decide)
      simp only [famMatch] at hf h0 h1 h2
      simp [getIngredientCategoryColor, famColor, hf, h0, h1, h2]
  · intro nm hs h0 h1 h2 h3
    simp [categorize, h0, h1, h2, h3]

/-- Witness for C2: "milk" matches the liquid family and no
higher-priority family, and gets the liquid color; "brown sugar" is
sugar-family only and is categorized `other`. -/
theorem c2_first_match_priority_witness :
    famMatch Fam.liquidFam (strToLower "milk") = true ∧
    getIngredientCategoryColor "milk" = famColor Fam.liquidFam ∧
    categorize "brown sugar" = Category.other := by
  refine ⟨by decide, ?_, ?_⟩
  · exact c2_first_match_priority.1 "milk" .liquidFam (by decide)
      (by intro g hg; cases g <;> revert hg <;> decide)
  · exact c2_first_match_priority.2 "brown sugar" (by decide) (by decide)
      (by decide) (by decide) (by decide)

/-- **C9** In `getIngredientCategoryColor`, the keywords `egg` and `eggs`
are matched by exact equality on the whole lowercased name (so "egg" and
"eggs" themselves get the liquid color), while every other keyword is a
substring match; consequently any name containing "egg" that is not
exactly "egg" or "eggs" and matches no other keyword falls through to the
default color. -/
theorem c9_egg_exact_equality :
    getIngredientCategoryColor "egg" = "#4169E1" ∧
    getIngredientCategoryColor "eggs" = "#4169E1" ∧
    (∀ nm : String, strIncludes (strToLower nm) "egg" = true →
      strToLower nm ≠ "egg" → strToLower nm ≠ "eggs" →
      flourMatch (strToLower nm) = false → liquidSubstrKw (strToLower nm) = false →
      fatMatch (strToLower nm) = false → sugarKw (strToLower nm) = false →
      getIngredientCategoryColor nm = "#8B0000") := by
  refine ⟨by decide, by decide, ?_⟩
  intro nm _ hne hnes h0 h1 h2 h3
  simp [getIngredientCategoryColor, liquidMatch, h0, h1, h2, h3, hne, hnes]

/-- Witness for C9: "egg yolks" contains "egg", is not exactly "egg" or
"eggs", matches no other keyword, and gets the default color. -/
theorem c9_egg_exact_equality_witness :
    strIncludes (strToLower "egg yolks") "egg" = true ∧
    getIngredientCategoryColor "egg yolks" = "#8B0000" := by
  refine ⟨by decide, ?_⟩
  exact c9_egg_exact_equality.2.2 "egg yolks" (by decide) (by decide)
    (by decide) (by decide) (by decide) (by decide) (by decide)

/-- An exact fraction: numerator over denominator, not necessarily in
lowest terms.  All values built by the embedded operations have positive
denominators, making the cross-multiplication order below the rational
order. -/
structure Q where
  num : Int
  den : Int
deriving DecidableEq

instance : OfNat Q n := ⟨⟨n, 1⟩⟩

instance : NatCast Q := ⟨fun n => ⟨n, 1⟩⟩

instance : Add Q := ⟨fun a b => ⟨a.num * b.den + b.num * a.den, a.den * b.den⟩⟩

instance : Neg Q := ⟨fun a => ⟨-a.num, a.den⟩⟩

instance : Sub Q := ⟨fun a b => a + -b⟩

instance : Mul Q := ⟨fun a b => ⟨a.num * b.num, a.den * b.den⟩⟩

/-- Reciprocal, flipping signs so the denominator stays positive. -/
def Q.inv (a : Q) : Q := if a.num < 0 then ⟨-a.den, -a.num⟩ else ⟨a.den, a.num⟩

instance : Div Q := ⟨fun a b => a * b.inv⟩

instance : LE Q := ⟨fun a b => a.num * b.den ≤ b.num * a.den⟩

instance : LT Q := ⟨fun a b => a.num * b.den < b.num * a.den⟩

instance (a b : Q) : Decidable (a ≤ b) :=
  decidable_of_iff (a.num * b.den ≤ b.num * a.den) Iff.rfl

instance (a b : Q) : Decidable (a < b) :=
  decidable_of_iff (a.num * b.den < b.num * a.den) Iff.rfl

instance : Max Q := ⟨fun a b => if a ≤ b then b else a⟩

/-- The `Ingredient` record of the data model (the TypeScript interface of
App.tsx lines 5-12; JS numbers embedded as `Q`). -/
structure Ingredient where
  name : String
  quantity : Q
  unit : String
  grams : Q
  original_text : String
  was_normalized : Bool
deriving DecidableEq

/-- A default ingredient, used only as the fallback value of `List.getD`
in theorem statements. -/
def dummyIngredient : Ingredient :=
  { name := "", quantity := 0, unit := "", grams := 0, original_text := "",
    was_normalized := false }

/-- The ingredient fields the UI edit handlers pass to `updateIngredient`
(App.tsx lines 618, 626, 635, 643). -/
inductive EditField
  | quantity
  | unit
  | grams
  | name
deriving DecidableEq

/-- The type of the value an edit supplies for each field: numbers for
`quantity`/`grams`, strings for `unit`/`name`. -/
@[reducible] def FieldVal : EditField → Type
  | .quantity => Q
  | .grams => Q
  | .unit => String
  | .name => String

/-- The object spread `{...ingredient, [field]: value}` of App.tsx
line 411-414: replace the one named field, keep all others. -/
def setField (ing : Ingredient) : (f : EditField) → FieldVal f → Ingredient
  | .quantity, v => { ing with quantity := v }
  | .grams, v => { ing with grams := v }
  | .unit, v => { ing with unit := v }
  | .name, v => { ing with name := v }

/-- Projection of an editable field, for stating frame conditions. -/
def getField : (f : EditField) → Ingredient → FieldVal f
  | .quantity, ing => ing.quantity
  | .grams, ing => ing.grams
  | .unit, ing => ing.unit
  | .name, ing => ing.name

/-- `updateAt l i g` applies `g` to the element at index `i` and leaves
every other element alone, like `arr[i] = g(arr[i])` on a copied array. -/
def updateAt (g : Ingredient → Ingredient) : List Ingredient → Nat → List Ingredient
  | [], _ => []
  | x :: xs, 0 => g x :: xs
  | x :: xs, n + 1 => x :: updateAt g xs n

/-- The new ingredient list built by `updateIngredient` (App.tsx lines
410-414): copy the list and replace index `i` by the spread-updated
ingredient. -/
def updateIngredientList (l : List Ingredient) (i : Nat) (f : EditField)
    (v : FieldVal f) : List Ingredient :=
  updateAt (fun ing => setField ing f v) l i

/-- The guard `field === 'quantity' || field === 'unit'` of App.tsx
line 423, deciding whether an edit triggers ratio recalculation. -/
def triggersRecalc : EditField → Bool
  | .quantity => true
  | .unit => true
  | _ => false

/-- Embedding of `updateIngredient` (App.tsx lines 407-440).  The first
component is the ingredient list stored by the immediate `setRecipe`; the
second is the payload of the `/api/recalculate-ratios` request — the full
updated list when one is sent, `none` when no recalculation is requested. -/
def updateIngredient (l : List Ingredient) (i : Nat) (f : EditField)
    (v : FieldVal f) : List Ingredient × Option (List Ingredient) :=
  (updateIngredientList l i f v,
    if triggersRecalc f then some (updateIngredientList l i f v) else none)

theorem updateAt_length (g : Ingredient → Ingredient) :
    ∀ (l : List Ingredient) (i : Nat), (updateAt g l i).length = l.length := by
  intro l
  induction l with
  | nil => intro i; rfl
  | cons x xs ih =>
    intro i
    cases i with
    | zero => rfl
    | succ n => simpa [updateAt] using ih n

theorem updateAt_getD_ne (g : Ingredient → Ingredient) :
    ∀ (l : List Ingredient) (i j : Nat), j ≠ i →
      (updateAt g l i).getD j dummyIngredient = l.getD j dummyIngredient := by
  intro l
  induction l with
  | nil => intro i j _; rfl
  | cons x xs ih =>
    intro i j hne
    cases i with
    | zero =>
      cases j with
      | zero => exact absurd rfl hne
      | succ m => rfl
    | succ n =>
      cases j with
      | zero => rfl
      | succ m =>
        simpa [updateAt] using ih n m (fun h => hne (by rw [h]))

theorem updateAt_getD_self (g : Ingredient → Ingredient) :
    ∀ (l : List Ingredient) (i : Nat), i < l.length →
      (updateAt g l i).getD i dummyIngredient =
        g (l.getD i dummyIngredient) := by
  intro l
  induction l with
  | nil => intro i h; exact absurd h (by simp)
  | cons x xs ih =>
    intro i h
    cases i with
    | zero => rfl
    | succ n => simpa [updateAt] using ih n (Nat.lt_of_succ_lt_succ h)

/-- **C10** `updateIngredient(i, f, v)` replaces only field `f` of the
ingredient at index `i`: the list length is unchanged, every ingredient at
another index is unchanged, the ingredient at `i` is the old one with only
field `f` replaced, and its other fields — including `original_text` and
`was_normalized` — are untouched. -/
theorem c10_update_frame :
    ∀ (l : List Ingredient) (i : Nat) (f : EditField) (v : FieldVal f),
      i < l.length →
      (updateIngredientList l i f v).length = l.length ∧
      (∀ j : Nat, j ≠ i →
        (updateIngredientList l i f v).getD j dummyIngredient =
          l.getD j dummyIngredient) ∧
      (updateIngredientList l i f v).getD i dummyIngredient =
        setField (l.getD i dummyIngredient) f v ∧
      (∀ (x : Ingredient) (g : EditField), g ≠ f →
        getField g (setField x f v) = getField g x) ∧
      (∀ x : Ingredient, (setField x f v).original_text = x.original_text ∧
        (setField x f v).was_normalized = x.was_normalized) := by
  intro l i f v hi
  refine ⟨updateAt_length _ l i, fun j hj => updateAt_getD_ne _ l i j hj,
    updateAt_getD_self _ l i hi, ?_, ?_⟩
  · intro x g hg
    cases f <;> cases g <;> first
      | exact absurd rfl hg
      | rfl
  · intro x
    cases f <;> exact ⟨rfl, rfl⟩

/-- A two-element demonstration list for the C10 witness. -/
def demoList : List Ingredient :=
  [{ name := "flour", quantity := 2, unit := "cup", grams := 240,
     original_text := "2 cups flour", was_normalized := false },
   { name := "butter", quantity := 1/2, unit := "cup", grams := 227/2,
     original_text := "0.5 cup butter", was_normalized := false }]

/-- Witness for C10: editing the quantity at index 0 of a concrete
two-element list keeps the length, index 1, and the other fields of
index 0 unchanged. -/
theorem c10_update_frame_witness :
    (0 : Nat) < demoList.length ∧
    (updateIngredientList demoList 0 EditField.quantity 3).length =
      demoList.length ∧
    (updateIngredientList demoList 0 EditField.quantity 3).getD 1
      dummyIngredient = demoList.getD 1 dummyIngredient ∧
    getField EditField.name
      (setField (demoList.getD 0 dummyIngredient) EditField.quantity 3) =
      getField EditField.name (demoList.getD 0 dummyIngredient) := by
  refine ⟨by decide, ?_, ?_, ?_⟩
  · exact (c10_update_frame demoList 0 EditField.quantity 3 (by decide)).1
  · exact (c10_update_frame demoList 0 EditField.quantity 3 (by decide)).2.1
      1 (by decide)
  · exact (c10_update_frame demoList 0 EditField.quantity 3
      (by decide)).2.2.2.1 (demoList.getD 0 dummyIngredient)
      EditField.name (by decide)

/-- Counterexample to **C1** as stated: a `name` edit does not re-invoke
the ratio computation — the source's recalculation request is guarded by
`field === 'quantity' || field === 'unit'` (App.tsx line 423), so editing
the name of the single ingredient of a loaded recipe sends no
recalculation request at all. -/
theorem c1_counterexample :
    (updateIngredient demoList 0 EditField.name "milk").2 = none ∧
    (updateIngredient demoList 0 EditField.name "milk").2 ≠
      some (updateIngredientList demoList 0 EditField.name "milk") := by
  exact ⟨rfl, by decide⟩

/-- **C1 (amended)** For every loaded recipe and every user edit that
replaces the `quantity` or `unit` field of any single ingredient, the edit
operation re-invokes the ratio computation over the full updated
ingredient list (a fresh recomputation whose request carries the whole
current list, no state from the previous result); an edit to `name`
updates the ingredient list but does not re-invoke the ratio
computation. -/
theorem c1_recalc_on_quantity_unit_edits :
    ∀ (l : List Ingredient) (i : Nat),
      (∀ v : FieldVal EditField.quantity,
        (updateIngredient l i EditField.quantity v).2 =
          some (updateIngredientList l i EditField.quantity v)) ∧
      (∀ v : FieldVal EditField.unit,
        (updateIngredient l i EditField.unit v).2 =
          some (updateIngredientList l i EditField.unit v)) ∧
      (∀ v : FieldVal EditField.name,
        (updateIngredient l i EditField.name v).1 =
          updateIngredientList l i EditField.name v ∧
        (updateIngredient l i EditField.name v).2 = none) := by
  intro l i
  exact ⟨fun v => rfl, fun v => rfl, fun v => ⟨rfl, rfl⟩⟩

/-- The ratio-eligible categories, in the fixed output order
`flour, liquid, egg, fat` of the spec's RatioResult. -/
def eligibleCategories : List Category :=
  [Category.flour, Category.liquid, Category.egg, Category.fat]

/-- Whether a category participates in ratio computation. -/
def isEligible : Category → Bool
  | .flour => true
  | .liquid => true
  | .egg => true
  | .fat => true
  | .other => false

/-- Modelled from the spec: the Ratio Engine's selection filter (spec
section 4.6) — an ingredient participates iff its category is
ratio-eligible and its grams value is at least 20. -/
def qualifiesB (i : Ingredient) : Bool :=
  isEligible (categorize i.name) && decide (20 ≤ i.grams)

/-- Modelled from the spec: aggregation — the summed grams of the
qualifying ingredients of one category. -/
def categoryTotal (ings : List Ingredient) (c : Category) : Q :=
  ((ings.filter (fun i => qualifiesB i && decide (categorize i.name = c))).map
    (fun i => i.grams)).foldr (· + ·) 0

/-- The eligible categories with a positive qualifying total, in the
fixed order, for a given totals function. -/
def presentCatsOf (tot : Category → Q) : List Category :=
  eligibleCategories.filter (fun c => decide (0 < tot c))

/-- The qualifying categories of an ingredient list. -/
def presentCategories (ings : List Ingredient) : List Category :=
  presentCatsOf (categoryTotal ings)

/-- All length-`k` lists of digits `1..9`, in lexicographic order. -/
def tuples : Nat → List (List Nat)
  | 0 => [[]]
  | n + 1 =>
    ((List.range 9).map (· + 1)).flatMap fun d => (tuples n).map fun t => d :: t

/-- The greatest common divisor of a list of naturals. -/
def listGcd (l : List Nat) : Nat := l.foldr Nat.gcd 0

/-- The candidate ratios of length `k`: single-digit positive integers
with collective GCD 1. -/
def candidates (k : Nat) : List (List Nat) :=
  (tuples k).filter fun r => decide (listGcd r = 1)

/-- Absolute value on `Q`. -/
def ratAbs (q : Q) : Q := if q < 0 then -q else q

/-- Sum of a natural-number list. -/
def natSum (l : List Nat) : Nat := l.foldr (· + ·) 0

/-- The percentage shares of a list of category totals. -/
def sharesOf (totals : List Q) : List Q :=
  totals.map fun t => t / totals.foldr (· + ·) 0

/-- Modelled from the spec: the objective of the reduction search — the
maximum deviation of a candidate's relative proportions from the true
percentage split. -/
def maxDev (shares : List Q) (r : List Nat) : Q :=
  ((r.zip shares).map fun p =>
    ratAbs ((p.1 : Q) / (natSum r : Q) - p.2)).foldr max 0

/-- Keep `r`, or the already-found better candidate `b` when its
deviation is strictly smaller. -/
def pickBetter (shares : List Q) (r : List Nat) : Option (List Nat) → List Nat
  | none => r
  | some b => if maxDev shares r ≤ maxDev shares b then r else b

/-- The first candidate (in enumeration order) minimizing the maximum
deviation — a deterministic argmin, as the spec requires determinism. -/
def argminByDev (shares : List Q) : List (List Nat) → Option (List Nat)
  | [] => none
  | r :: rest => some (pickBetter shares r (argminByDev shares rest))

/-- Display label of a category. -/
def catLabel : Category → String
  | .flour => "flour"
  | .liquid => "liquid"
  | .egg => "egg"
  | .fat => "fat"
  | .other => "other"

/-- Colon-joined rendering of a ratio, e.g. `"5:1:3"`. -/
def ratioString (r : List Nat) : String :=
  String.intercalate ":" (r.map toString)

/-- The `RatioResult` record of the data model. -/
structure RatioResult where
  categories : List String
  ratio : List Nat
  ratio_string : String
deriving DecidableEq

/-- Modelled from the spec: the Ratio Engine's reduction (spec section
4.6) for a given per-category totals function: if fewer than two
categories qualify, no result; otherwise search the single-digit GCD-1
candidates for the one that best approximates the qualifying categories'
percentage shares. -/
def ratioFromTotals (tot : Category → Q) : Option RatioResult :=
  if (presentCatsOf tot).length < 2 then none
  else
    match argminByDev (sharesOf ((presentCatsOf tot).map tot))
        (candidates (presentCatsOf tot).length) with
    | none => none
    | some r => some ⟨(presentCatsOf tot).map catLabel, r, ratioString r⟩

/-- Modelled from the spec: `computeRatios` — aggregate qualifying grams
per category over the full ingredient list, then reduce to a memorable
small-integer ratio, or report that no ratio is available. -/
def computeRatios (ings : List Ingredient) : Option RatioResult :=
  ratioFromTotals (categoryTotal ings)

/-- The flour ingredient of the spec's end-to-end example:
2 cups flour, 240 g. -/
def c3flour : Ingredient :=
  { name := "flour", quantity := 2, unit := "cup", grams := 240,
    original_text := "2 cups flour", was_normalized := false }

/-- The sugar ingredient of the spec's end-to-end example:
1 cup sugar, 200 g (category `other`, excluded). -/
def c3sugar : Ingredient :=
  { name := "sugar", quantity := 1, unit := "cup", grams := 200,
    original_text := "1 cup sugar", was_normalized := false }

/-- The butter ingredient of the spec's end-to-end example:
0.5 cup butter, 113.5 g. -/
def c3butter : Ingredient :=
  { name := "butter", quantity := 1 / 2, unit := "cup", grams := 227 / 2,
    original_text := "0.5 cup butter", was_normalized := false }

/-- The ingredient list of the spec's end-to-end example. -/
def c3Ingredients : List Ingredient := [c3flour, c3sugar, c3butter]

/-- **C3** On the example list [2 cups flour (240 g), 1 cup sugar (200 g,
`other`, excluded), 0.5 cup butter (113.5 g, fat)], `computeRatios`
selects the qualifying totals flour = 240 g and fat = 113.5 g and returns
categories ["flour","fat"], ratio [2,1] and ratio_string "2:1"; [2,1] is
the single-digit GCD-1 pair minimizing the maximum deviation from the
true percentage split. -/
theorem c3_end_to_end_example :
    computeRatios c3Ingredients = some ⟨["flour", "fat"], [2, 1], "2:1"⟩ ∧
    categorize "sugar" = Category.other ∧
    presentCategories c3Ingredients = [Category.flour, Category.fat] ∧
    categoryTotal c3Ingredients Category.flour = 240 ∧
    categoryTotal c3Ingredients Category.fat = 227 / 2 ∧
    (∀ rr ∈ candidates 2,
      maxDev (sharesOf [(240 : Q), 227 / 2]) [2, 1] ≤
        maxDev (sharesOf [(240 : Q), 227 / 2]) rr) := by
  exact ⟨by decide, by decide, by decide, by decide, by decide, by decide⟩

theorem argminByDev_mem (shares : List Q) :
    ∀ (l : List (List Nat)) (r : List Nat),
      argminByDev shares l = some r → r ∈ l := by
  intro l
  induction l with
  | nil => intro r h; simp [argminByDev] at h
  | cons x xs ih =>
    intro r h
    simp only [argminByDev, Option.some.injEq] at h
    cases hx : argminByDev shares xs with
    | none =>
      rw [hx] at h
      simp only [pickBetter] at h
      rw [← h]
      exact List.mem_cons_self x xs
    | some b =>
      rw [hx] at h
      simp only [pickBetter] at h
      split at h
      · rw [← h]
        exact List.mem_cons_self x xs
      · rw [← h]
        exact List.mem_cons_of_mem x (ih b hx)

theorem length_of_mem_tuples :
    ∀ (k : Nat) (r : List Nat), r ∈ tuples k → r.length = k := by
  intro k
  induction k with
  | zero =>
    intro r h
    simp only [tuples, List.mem_singleton] at h
    rw [h]
    rfl
  | succ n ih =>
    intro r h
    simp only [tuples, List.mem_flatMap, List.mem_map] at h
    obtain ⟨d, _, t, ht, rfl⟩ := h
    simp [ih t ht]

theorem mem_candidates (k : Nat) (r : List Nat) (h : r ∈ candidates k) :
    r ∈ tuples k ∧ listGcd r = 1 := by
  unfold candidates at h
  rw [List.mem_filter] at h
  exact ⟨h.1, of_decide_eq_true h.2⟩

theorem listGcd_of_all_eq :
    ∀ (l : List Nat) (c : Nat), l ≠ [] → (∀ x ∈ l, x = c) →
      listGcd l = c := by
  intro l
  induction l with
  | nil => intro c h _; exact absurd rfl h
  | cons a tail ih =>
    intro c _ hall
    have ha : a = c := hall a (List.mem_cons_self a tail)
    cases tail with
    | nil => simp [listGcd, ha]
    | cons b tb =>
      have htail : listGcd (b :: tb) = c :=
        ih c (by simp) (fun x hx => hall x (List.mem_cons_of_mem a hx))
      show Nat.gcd a (listGcd (b :: tb)) = c
      rw [htail, ha, Nat.gcd_self]

theorem ratioFromTotals_inv (tot : Category → Q) (cats : List String)
    (r : List Nat) (s : String)
    (h : ratioFromTotals tot = some ⟨cats, r, s⟩) :
    r ∈ candidates (presentCatsOf tot).length ∧
    2 ≤ (presentCatsOf tot).length ∧
    cats = (presentCatsOf tot).map catLabel ∧ s = ratioString r := by
  unfold ratioFromTotals at h
  split at h
  · exact absurd h (by simp)
  · rename_i hlen
    split at h
    · exact absurd h (by simp)
    · rename_i r' hr
      simp only [Option.some.injEq, RatioResult.mk.injEq] at h
      obtain ⟨hcats, hrr, hs⟩ := h
      rw [← hrr]
      exact ⟨argminByDev_mem _ _ r' hr, Nat.not_lt.mp hlen, hcats.symm,
        by rw [← hs]⟩

/-- **C4** Every ratio list returned by the Ratio Engine has greatest
common divisor 1; in particular, if all its entries are equal then each
is 1 and the returned form is 1:1:...:1. -/
theorem c4_ratio_gcd_one :
    ∀ (ings : List Ingredient) (cats : List String) (r : List Nat)
      (s : String), computeRatios ings = some ⟨cats, r, s⟩ →
      listGcd r = 1 ∧
      ∀ c : Nat, (∀ x ∈ r, x = c) → r = List.replicate r.length 1 := by
  intro ings cats r s h
  have hinv := ratioFromTotals_inv (categoryTotal ings) cats r s h
  have hc := mem_candidates _ r hinv.1
  refine ⟨hc.2, ?_⟩
  intro c hall
  have hlen := length_of_mem_tuples _ r hc.1
  have hne : r ≠ [] := by
    intro hnil
    rw [hnil] at hlen
    have h2 := hinv.2.1
    rw [← hlen] at h2
    exact absurd h2 (by decide)
  have hgc : listGcd r = c := listGcd_of_all_eq r c hne hall
  have hc1 : c = 1 := by rw [← hgc]; exact hc.2
  rw [hc1] at hall
  exact List.eq_replicate_of_mem hall

/-- Witness for C4: on the end-to-end example the engine returns the
ratio [2,1], whose GCD is 1. -/
theorem c4_ratio_gcd_one_witness :
    computeRatios c3Ingredients = some ⟨["flour", "fat"], [2, 1], "2:1"⟩ ∧
    listGcd [2, 1] = 1 :=
  ⟨by decide,
    (c4_ratio_gcd_one c3Ingredients ["flour", "fat"] [2, 1] "2:1"
      (by decide)).1⟩

theorem categoryTotal_filter (l : List Ingredient) (c : Category) :
    categoryTotal (l.filter qualifiesB) c = categoryTotal l c := by
  unfold categoryTotal
  rw [List.filter_filter]
  have hpt : ∀ i ∈ l,
      ((qualifiesB i && decide (categorize i.name = c)) && qualifiesB i) =
        (qualifiesB i && decide (categorize i.name = c)) := by
    intro i _
    cases qualifiesB i <;> simp
  rw [List.filter_congr hpt]

theorem categoryTotal_cons_not (ing : Ingredient) (l : List Ingredient)
    (c : Category) (h : qualifiesB ing = false) :
    categoryTotal (ing :: l) c = categoryTotal l c := by
  unfold categoryTotal
  rw [List.filter_cons]
  simp [h]

theorem computeRatios_congr (l1 l2 : List Ingredient)
    (h : ∀ c, categoryTotal l1 c = categoryTotal l2 c) :
    computeRatios l1 = computeRatios l2 :=
  congrArg ratioFromTotals (funext h)

/-- **C5** An ingredient participates in the ratio computation iff its
category is ratio-eligible and its grams value is at least 20 (the
`qualifiesB` filter): the result over any list equals the result over its
qualifying sublist, and an ingredient with grams < 20 never contributes
to any returned RatioResult, regardless of its category. -/
theorem c5_threshold_exclusion :
    (∀ l : List Ingredient,
      computeRatios l = computeRatios (l.filter qualifiesB)) ∧
    (∀ (ing : Ingredient) (l : List Ingredient), ing.grams < 20 →
      computeRatios (ing :: l) = computeRatios l) := by
  constructor
  · intro l
    exact (computeRatios_congr _ _ (fun c => categoryTotal_filter l c)).symm
  · intro ing l h
    have hq : qualifiesB ing = false := by
      unfold qualifiesB
      have hd : decide (20 ≤ ing.grams) = false :=
        decide_eq_false (Int.not_le.mpr h)
      rw [hd, Bool.and_false]
    exact computeRatios_congr _ _ (fun c => categoryTotal_cons_not ing l c hq)

/-- A flour ingredient below the 20 g threshold, for the C5 witness. -/
def tinyFlour : Ingredient :=
  { name := "flour", quantity := 1, unit := "tbls", grams := 5,
    original_text := "1 tbls flour", was_normalized := false }

/-- Witness for C5: a 5 g flour ingredient is below the threshold and
dropping it from a list does not change the computed ratios. -/
theorem c5_threshold_exclusion_witness :
    tinyFlour.grams < 20 ∧
    computeRatios (tinyFlour :: c3Ingredients) =
      computeRatios c3Ingredients :=
  ⟨by decide, c5_threshold_exclusion.2 tinyFlour c3Ingredients (by decide)⟩

/-- **C6** If fewer than two categories qualify, `computeRatios` produces
no RatioResult at all; whenever it does return a result, the result has
at least two categories and the parallel ratio list has the same length —
never a degenerate single-element or empty ratio. -/
theorem c6_unavailable_below_two_categories :
    (∀ l : List Ingredient, (presentCategories l).length < 2 →
      computeRatios l = none) ∧
    (∀ (l : List Ingredient) (cats : List String) (r : List Nat)
      (s : String), computeRatios l = some ⟨cats, r, s⟩ →
      2 ≤ cats.length ∧ cats.length = r.length ∧ 2 ≤ r.length) := by
  constructor
  · intro l h
    have h' : (presentCatsOf (categoryTotal l)).length < 2 := h
    unfold computeRatios ratioFromTotals
    rw [if_pos h']
  · intro l cats r s h
    have hinv := ratioFromTotals_inv _ _ _ _ h
    have hlen := length_of_mem_tuples _ r (mem_candidates _ r hinv.1).1
    have hcats : cats = (presentCatsOf (categoryTotal l)).map catLabel :=
      hinv.2.2.1
    refine ⟨?_, ?_, ?_⟩
    · rw [hcats, List.length_map]
      exact hinv.2.1
    · rw [hcats, List.length_map, hlen]
    · rw [hlen]
      exact hinv.2.1

/-- Witness for C6: flour alone gives a single qualifying category and no
ratio. -/
theorem c6_unavailable_below_two_categories_witness :
    (presentCategories [c3flour]).length < 2 ∧
    computeRatios [c3flour] = none :=
  ⟨by decide,
    (c6_unavailable_below_two_categories).1 [c3flour] (by decide)⟩

/-- Modelled from the spec: the Unit Normalizer's alias table (spec
section 4.2 and the parser's closed unit vocabulary of section 4.1) —
tablespoon spellings collapse to `tbls`, teaspoon spellings to `tsps`
(kept distinct), cup/cups to `cup`, mass and metric units to themselves;
each canonical token is its own alias so canonical forms are fixed. -/
def unitAliases : List (String × String) :=
  [("tablespoon", "tbls"), ("tablespoons", "tbls"), ("tbsp", "tbls"),
   ("tbls", "tbls"),
   ("teaspoon", "tsps"), ("teaspoons", "tsps"), ("tsp", "tsps"),
   ("tsps", "tsps"),
   ("cup", "cup"), ("cups", "cup"),
   ("ml", "ml"), ("l", "l"),
   ("g", "g"), ("gram", "g"), ("grams", "g"),
   ("kg", "kg"), ("oz", "oz"), ("lb", "lb")]

/-- First-match association-list lookup. -/
def aliasLookup : List (String × String) → String → Option String
  | [], _ => none
  | (k, v) :: rest, s => if s = k then some v else aliasLookup rest s

/-- Modelled from the spec: the backend unit-normalize operation on unit
tokens is not under `src/`; per spec section 4.2 it maps a raw unit token
case-insensitively through the alias table to its canonical form, and
leaves unknown tokens unchanged. -/
def normalizeUnit (u : String) : String :=
  match aliasLookup unitAliases (strToLower u) with
  | some c => c
  | none => u

theorem aliasLookup_mem :
    ∀ (t : List (String × String)) (s c : String),
      aliasLookup t s = some c → c ∈ t.map Prod.snd := by
  intro t
  induction t with
  | nil => intro s c h; simp [aliasLookup] at h
  | cons p rest ih =>
    intro s c h
    obtain ⟨k, v⟩ := p
    unfold aliasLookup at h
    by_cases hs : s = k
    · rw [if_pos hs] at h
      simp only [Option.some.injEq] at h
      rw [← h]
      simp
    · rw [if_neg hs] at h
      simp only [List.map_cons, List.mem_cons]
      exact Or.inr (ih s c h)

theorem normalize_canonical :
    ∀ c ∈ unitAliases.map Prod.snd, normalizeUnit c = c := by decide

/-- **C8** Unit normalization is idempotent: for every unit token `u`,
`normalizeUnit (normalizeUnit u) = normalizeUnit u` — normalizing an
already-canonical unit returns it unchanged. -/
theorem c8_normalize_idempotent :
    ∀ u : String, normalizeUnit (normalizeUnit u) = normalizeUnit u := by
  intro u
  cases h : aliasLookup unitAliases (strToLower u) with
  | none =>
    have hu : normalizeUnit u = u := by unfold normalizeUnit; rw [h]
    rw [hu]
    exact hu
  | some c =>
    have hu : normalizeUnit u = c := by unfold normalizeUnit; rw [h]
    rw [hu]
    exact normalize_canonical c (aliasLookup_mem _ _ _ h)

/-- Characters the parser strips from line ends: bullet/list glyphs and
whitespace (spec section 4.1). -/
def isStripChar (c : Char) : Bool := c == '▢' || c == '•' || c == ' '

/-- Strip leading bullet glyphs/whitespace and trailing whitespace. -/
def stripLine (s : String) : String :=
  String.mk (((s.data.dropWhile isStripChar).reverse.dropWhile
    (fun c => c == ' ')).reverse)

/-- Split a character list into whitespace-separated words. -/
def wordsAux : List Char → List Char → List String
  | [], acc => if acc.isEmpty then [] else [String.mk acc.reverse]
  | c :: rest, acc =>
    if c == ' ' then
      if acc.isEmpty then wordsAux rest []
      else String.mk acc.reverse :: wordsAux rest []
    else wordsAux rest (c :: acc)

/-- The whitespace-separated tokens of a stripped ingredient line. -/
def lineTokens (s : String) : List String :=
  wordsAux (stripLine s).data []

/-- Split a character list at a separator character, keeping empties. -/
def splitChar (sep : Char) : List Char → List (List Char)
  | [] => [[]]
  | c :: rest =>
    if c == sep then [] :: splitChar sep rest
    else
      match splitChar sep rest with
      | [] => [[c]]
      | w :: ws => (c :: w) :: ws

/-- A nonempty all-digit character list. -/
def charsNat (cs : List Char) : Bool := !cs.isEmpty && cs.all Char.isDigit

/-- Decimal value of an all-digit character list. -/
def charsNatVal (cs : List Char) : Nat :=
  cs.foldl (fun a c => a * 10 + (c.toNat - 48)) 0

/-- Integer quantity token, e.g. "2". -/
def isNatToken (t : String) : Bool := charsNat t.data

/-- Value of an integer quantity token. -/
def natValQ (t : String) : Q := ⟨charsNatVal t.data, 1⟩

/-- Decimal quantity token, e.g. "2.5". -/
def isDecToken (t : String) : Bool :=
  match splitChar '.' t.data with
  | [a, b] => charsNat a && charsNat b
  | _ => false

/-- Value of a decimal quantity token. -/
def decValQ (t : String) : Q :=
  match splitChar '.' t.data with
  | [a, b] =>
    ⟨charsNatVal a * (10 ^ b.length : Nat) + charsNatVal b,
      (10 ^ b.length : Nat)⟩
  | _ => 0

/-- ASCII fraction token, e.g. "1/2" (nonzero denominator). -/
def isFracToken (t : String) : Bool :=
  match splitChar '/' t.data with
  | [a, b] => charsNat a && charsNat b && (charsNatVal b != 0)
  | _ => false

/-- Value of an ASCII fraction token. -/
def fracValQ (t : String) : Q :=
  match splitChar '/' t.data with
  | [a, b] => ⟨charsNatVal a, charsNatVal b⟩
  | _ => 0

/-- Simple range token, e.g. "2-3" (spec: lower bound is canonical). -/
def isRangeToken (t : String) : Bool :=
  match splitChar '-' t.data with
  | [a, b] => charsNat a && charsNat b
  | _ => false

/-- Lower bound of a range token. -/
def rangeLowQ (t : String) : Q :=
  match splitChar '-' t.data with
  | [a, _] => ⟨charsNatVal a, 1⟩
  | _ => 0

/-- Exact rational values of the vulgar-fraction glyphs (spec 4.1). -/
def vulgarVal : Char → Option Q
  | '½' => some ⟨1, 2⟩
  | '¼' => some ⟨1, 4⟩
  | '¾' => some ⟨3, 4⟩
  | '⅓' => some ⟨1, 3⟩
  | '⅔' => some ⟨2, 3⟩
  | '⅛' => some ⟨1, 8⟩
  | '⅜' => some ⟨3, 8⟩
  | '⅝' => some ⟨5, 8⟩
  | '⅞' => some ⟨7, 8⟩
  | _ => none

/-- Modelled from the spec: recognition of one leading quantity token in
any of the forms of spec section 4.1 — integer, decimal, vulgar-fraction
glyph, ASCII fraction, or range (lower bound, flagged normalized). -/
def qtyToken (t : String) : Option (Q × Bool) :=
  if isNatToken t then some (natValQ t, false)
  else if isDecToken t then some (decValQ t, false)
  else if isFracToken t then some (fracValQ t, false)
  else if isRangeToken t then some (rangeLowQ t, true)
  else
    match t.data with
    | [c] =>
      match vulgarVal c with
      | some q => some (q, false)
      | none => none
    | _ => none

/-- Modelled from the spec: the quantity tokenizer over the token list —
also resolves "whole + fraction" mixed numbers such as "1 1/2" to a
single canonical value, flagged normalized.  Returns the quantity, the
normalization flag and the remaining tokens, or `none` when the line has
no recognizable quantity token. -/
def parseQuantity : List String → Option (Q × Bool × List String)
  | [] => none
  | t :: rest =>
    match qtyToken t with
    | none => none
    | some (q, n) =>
      match rest with
      | t2 :: rest2 =>
        if isNatToken t && isFracToken t2 then
          some (q + fracValQ t2, true, rest2)
        else some (q, n, rest)
      | [] => some (q, n, [])

/-- Whether the line visually implies a count: it opens with an article,
as in "a pinch of salt" (spec section 4.1). -/
def countImplied (toks : List String) : Bool :=
  match toks with
  | t :: _ => strToLower t == "a" || strToLower t == "an"
  | [] => false

/-- The name part of a count-implied line: everything after "of" when
present ("a pinch of salt" → "salt"), else everything after the
article. -/
def afterOf (toks : List String) : List String :=
  match toks.dropWhile (fun t => !(strToLower t == "of")) with
  | _ :: rest => rest
  | [] => toks.drop 1

/-- Space-joined rendering of a token list. -/
def joinTokens (ts : List String) : String := String.intercalate " " ts

/-- Whether a token belongs to the parser's closed unit vocabulary. -/
def unitVocab (t : String) : Bool :=
  (aliasLookup unitAliases (strToLower t)).isSome

/-- Modelled from the spec: the backend Tokenizer/Parser for one raw
ingredient line (spec section 4.1) is not under `src/` — strip glyphs and
whitespace, recognize a leading quantity and an optional unit from the
closed vocabulary, treat the rest as the name; with no quantity, default
quantity 1 (flagged) when the line visually implies a count; otherwise
degrade to the pass-through `Ingredient` with `quantity = 0`,
`unit = ""`, `name = original_text`, `was_normalized = false`.  `grams`
is left 0 here: the Gram Converter recomputes it downstream. -/
def parseLine (original : String) : Ingredient :=
  match parseQuantity (lineTokens original) with
  | some (q, norm, rest) =>
    match rest with
    | u :: rest2 =>
      if unitVocab u then
        { name := joinTokens rest2, quantity := q, unit := normalizeUnit u,
          grams := 0, original_text := original,
          was_normalized := norm || !(normalizeUnit u == u) }
      else
        { name := joinTokens rest, quantity := q, unit := "", grams := 0,
          original_text := original, was_normalized := norm }
    | [] =>
      { name := "", quantity := q, unit := "", grams := 0,
        original_text := original, was_normalized := norm }
  | none =>
    if countImplied (lineTokens original) then
      { name := joinTokens (afterOf (lineTokens original)), quantity := 1,
        unit := "", grams := 0, original_text := original,
        was_normalized := true }
    else
      { name := original, quantity := 0, unit := "", grams := 0,
        original_text := original, was_normalized := false }

/-- **C7** A raw line that cannot be parsed at all — no recognizable
quantity token and no count-implying article giving a name boundary —
still produces an `Ingredient`, with `quantity = 0`, `unit = ""`,
`name` equal to the original text and `was_normalized = false`; the
parser is a total function, so no error escapes for a malformed
individual line. -/
theorem c7_unparsable_passthrough :
    ∀ line : String, parseQuantity (lineTokens line) = none →
      countImplied (lineTokens line) = false →
      parseLine line =
        { name := line, quantity := 0, unit := "", grams := 0,
          original_text := line, was_normalized := false } := by
  intro line h1 h2
  unfold parseLine
  rw [h1, h2]
  rfl

/-- Witness for C7: "salt to taste" has no quantity token and no
count-implying article, and passes through unparsed. -/
theorem c7_unparsable_passthrough_witness :
    parseQuantity (lineTokens "salt to taste") = none ∧
    countImplied (lineTokens "salt to taste") = false ∧
    parseLine "salt to taste" =
      { name := "salt to taste", quantity := 0, unit := "", grams := 0,
        original_text := "salt to taste", was_normalized := false } :=
  ⟨by decide, by decide,
    c7_unparsable_passthrough "salt to taste" (by decide) (by decide)⟩
